import Mathlib

/-!
Verification development for the Advanced File Downloader application
(`src/app.py`).  The program is a Streamlit form-handler: it re-encodes an
in-memory payload (raw text, a pandas DataFrame, or image bytes) into one of
the formats txt/json/csv/xlsx/png/jpg/zip and offers the bytes for download.
This file gives a shallow embedding of its export logic — the
`FileDownloader` class, `csv_downloader`, `excel_downloader`, `create_zip`,
and the relevant branches of `main` — and proves or refutes the specified
properties about them.  Library calls that the program delegates to
(pandas CSV serialization, Pillow encoding, zipfile) are modelled by their
documented contracts; each such definition says so in its doc comment.
-/

/-! ## Byte-level basics -/

/-- Hexadecimal digit character (lowercase), as produced by Python's
formatting of `\xHH` and `\uXXXX` escapes. -/
def hexDigit (n : Nat) : Char :=
  if n < 10 then Char.ofNat (48 + n) else Char.ofNat (87 + n)

/-- UTF-8 encoding of a single character (standard algorithm; `str.encode()`
in the program always uses UTF-8, its default). -/
def utf8Bytes (c : Char) : List Nat :=
  if c.toNat < 0x80 then [c.toNat]
  else if c.toNat < 0x800 then
    [0xC0 ||| (c.toNat >>> 6), 0x80 ||| (c.toNat &&& 0x3F)]
  else if c.toNat < 0x10000 then
    [0xE0 ||| (c.toNat >>> 12), 0x80 ||| ((c.toNat >>> 6) &&& 0x3F),
     0x80 ||| (c.toNat &&& 0x3F)]
  else
    [0xF0 ||| (c.toNat >>> 18), 0x80 ||| ((c.toNat >>> 12) &&& 0x3F),
     0x80 ||| ((c.toNat >>> 6) &&& 0x3F), 0x80 ||| (c.toNat &&& 0x3F)]

/-- UTF-8 encoding of a string, the byte sequence produced by Python's
`s.encode()`. -/
def strToUtf8 (s : String) : List Nat :=
  s.data.flatMap utf8Bytes

/-! ## Tabular datasets

A pandas DataFrame, as the program uses it, is a header of named columns
plus rows of cell values; the claims concern column order and cell values,
so cells are modelled as the strings they serialize to. -/

/-- A tabular dataset: ordered column names and rows of cell values. -/
structure Df where
  cols : List String
  rows : List (List String)
deriving DecidableEq, Repr

/-! ## CSV serialization (`DataFrame.to_csv`)

Modelled from pandas' documented contract, which the source relies on at
`data.to_csv(...)`: fields are minimally quoted (csv.QUOTE_MINIMAL) with
quote character `"`, a field is quoted exactly when it contains the
delimiter, the quote character, or a line-break character, embedded quotes
are doubled, and records are terminated by `\n`. -/

/-- Characters that force quoting of a CSV field under QUOTE_MINIMAL. -/
def specialChar (d c : Char) : Bool :=
  c = d || c = '"' || c = '\n' || c = '\r'

/-- Whether `to_csv` must quote the field `s` for delimiter `d`. -/
def needsQuote (d : Char) (s : String) : Bool :=
  s.data.any (specialChar d)

/-- Double every quote character, the CSV escape applied inside a quoted
field. -/
def escQ (f : List Char) : List Char :=
  f.flatMap (fun c => if c = '"' then ['"', '"'] else [c])

/-- Serialize one field: quoted with doubled quotes when needed, verbatim
otherwise. -/
def encFieldChars (d : Char) (s : String) : List Char :=
  if needsQuote d s then '"' :: (escQ s.data ++ ['"']) else s.data

/-- Serialize one record: fields joined by the delimiter. -/
def encRowChars (d : Char) : List String → List Char
  | [] => []
  | [f] => encFieldChars d f
  | f :: f2 :: fs => encFieldChars d f ++ d :: encRowChars d (f2 :: fs)

/-- The character stream of a whole CSV document: header record first, then
the data records, each terminated by a newline. -/
def csvChars (d : Char) (df : Df) : List Char :=
  List.flatten ((df.cols :: df.rows).map (fun r => encRowChars d r ++ ['\n']))

/-- `DataFrame.to_csv(index=False, sep=d)` as a string. -/
def toCsv (d : Char) (df : Df) : String :=
  String.mk (csvChars d df)

/-! ## CSV parsing

Modelled from the spec: the spec's round-trip property speaks of "parsing
the csv-export output with delimiter C"; the parsing side (`pd.read_csv`)
is an external collaborator the spec excludes, so the parser below follows
the CSV grammar the spec's table in §4 fixes — delimiter-separated fields,
`"`-quoted fields with doubled embedded quotes, newline-terminated
records. -/

/-- Parse the body of a quoted field after the opening quote, returning the
field's characters and the input remaining after the closing quote. -/
def parseFieldQ (acc : List Char) : List Char → Option (List Char × List Char)
  | [] => none
  | c :: cs =>
    if c = '"' then
      match cs with
      | [] => some (acc, [])
      | c2 :: cs2 =>
        if c2 = '"' then parseFieldQ (acc ++ ['"']) cs2 else some (acc, c2 :: cs2)
    else parseFieldQ (acc ++ [c]) cs

/-- Parse an unquoted field: everything up to the next delimiter or
newline, which is left in the remainder. -/
def parseFieldU (d : Char) (cs : List Char) : List Char × List Char :=
  (cs.takeWhile (fun c => !(c = d || c = '\n')),
   cs.dropWhile (fun c => !(c = d || c = '\n')))

/-- Parse one field, quoted or unquoted. -/
def parseOneField (d : Char) (cs : List Char) : Option (List Char × List Char) :=
  match cs with
  | [] => some ([], [])
  | c :: cs' => if c = '"' then parseFieldQ [] cs' else some (parseFieldU d (c :: cs'))

/-- Parse one record (fuelled by the number of fields still allowed),
returning the fields and the input remaining after the record's
newline. -/
def parseRecFuel (d : Char) : Nat → List Char → Option (List String × List Char)
  | 0, _ => none
  | n + 1, cs =>
    match parseOneField d cs with
    | none => none
    | some (f, rest) =>
      match rest with
      | [] => some ([String.mk f], [])
      | c :: rest2 =>
        if c = d then
          match parseRecFuel d n rest2 with
          | none => none
          | some (fs, r) => some (String.mk f :: fs, r)
        else if c = '\n' then some ([String.mk f], rest2)
        else none

/-- Parse a sequence of newline-terminated records (fuelled by the number of
records still allowed). -/
def parseDocFuel (d : Char) : Nat → List Char → Option (List (List String))
  | 0, cs => if cs = [] then some [] else none
  | n + 1, cs =>
    if cs = [] then some []
    else
      match parseRecFuel d (cs.length + 1) cs with
      | none => none
      | some (r, rest) =>
        match parseDocFuel d n rest with
        | none => none
        | some rs => some (r :: rs)

/-- Parse a CSV document into a dataset: the first record is the header,
the remaining records are the rows. -/
def parseCsv (d : Char) (s : String) : Option Df :=
  match parseDocFuel d (s.data.length + 1) s.data with
  | some (h :: rs) => some ⟨h, rs⟩
  | _ => none

/-- The four delimiters the program's delimiter selector offers. -/
def csvDelims : List Char := [',', ';', '\t', '|']

/-! ## Filenames and MIME types (`FileDownloader._get_mime_type`, `download`) -/

/-- The filename pattern every downloader in the program uses:
`{prefix}_{timestr}.{ext}`. -/
def mkFilename (filePrefix ts ext : String) : String :=
  filePrefix ++ "_" ++ ts ++ "." ++ ext

/-- The extension of a filename: the characters after the last dot. -/
def fileExtension (s : String) : String :=
  String.mk ((s.data.reverse.takeWhile (fun c => c ≠ '.')).reverse)

/-- The `mime_types` dictionary of `FileDownloader._get_mime_type`. -/
def mimeTypes : List (String × String) :=
  [("txt", "text/plain"),
   ("csv", "text/csv"),
   ("json", "application/json"),
   ("xlsx", "application/vnd.openxmlformats-officedocument.spreadsheetml.sheet"),
   ("png", "image/png"),
   ("jpg", "image/jpeg"),
   ("zip", "application/zip")]

/-- `mime_types.get(ext, 'application/octet-stream')`. -/
def mimeLookup (ext : String) : String :=
  (mimeTypes.lookup ext).getD "application/octet-stream"

/-- The fixed format→MIME table as the spec states it in §6, written from
the spec's words for comparison with the code's dictionary. -/
def specMime (ext : String) : String :=
  if ext = "txt" then "text/plain"
  else if ext = "csv" then "text/csv"
  else if ext = "json" then "application/json"
  else if ext = "xlsx" then
    "application/vnd.openxmlformats-officedocument.spreadsheetml.sheet"
  else if ext = "png" then "image/png"
  else if ext = "jpg" then "image/jpeg"
  else if ext = "zip" then "application/zip"
  else "application/octet-stream"

/-! ## Python value rendering (`str(...)`, `repr` of bytes, `json.dumps`) -/

/-- Quote character chosen by Python's `repr` of a bytes object: a single
quote, unless the bytes contain one and no double quote. -/
def bytesReprQuote (b : List Nat) : Nat :=
  if b.contains 39 && !(b.contains 34) then 34 else 39

/-- How Python's `repr` of a bytes object renders one byte, given the
chosen quote character: escape the quote and backslash, use `\t`, `\n`,
`\r`, show printable ASCII verbatim, and everything else as `\xHH`. -/
def bytesReprEscape (q x : Nat) : List Char :=
  if x = q || x = 92 then ['\\', Char.ofNat x]
  else if x = 9 then ['\\', 't']
  else if x = 10 then ['\\', 'n']
  else if x = 13 then ['\\', 'r']
  else if x < 32 || 127 ≤ x then ['\\', 'x', hexDigit (x / 16), hexDigit (x % 16)]
  else [Char.ofNat x]

/-- Python's `str(...)` of a bytes object (`repr`): `b` followed by the
quoted, escaped byte rendering. -/
def pyReprBytes (b : List Nat) : String :=
  String.mk ('b' :: Char.ofNat (bytesReprQuote b) ::
    (b.flatMap (bytesReprEscape (bytesReprQuote b)) ++ [Char.ofNat (bytesReprQuote b)]))

/-- A `\uXXXX` escape with lowercase hex digits. -/
def uEsc (n : Nat) : List Char :=
  ['\\', 'u', hexDigit (n / 4096 % 16), hexDigit (n / 256 % 16),
   hexDigit (n / 16 % 16), hexDigit (n % 16)]

/-- How `json.dumps` (defaults, `ensure_ascii=True`) escapes one character
inside a JSON string literal. -/
def jsonEscapeChar (c : Char) : List Char :=
  if c = '"' then ['\\', '"']
  else if c = '\\' then ['\\', '\\']
  else if c = '\n' then ['\\', 'n']
  else if c = '\r' then ['\\', 'r']
  else if c = '\t' then ['\\', 't']
  else if c.toNat = 8 then ['\\', 'b']
  else if c.toNat = 12 then ['\\', 'f']
  else if c.toNat < 32 then uEsc c.toNat
  else if c.toNat < 127 then [c]
  else if c.toNat < 0x10000 then uEsc c.toNat
  else
    uEsc (0xD800 + (c.toNat - 0x10000) / 0x400) ++
      uEsc (0xDC00 + (c.toNat - 0x10000) % 0x400)

/-- A JSON string literal for `s`, as `json.dumps` writes it. -/
def jsonStrLit (s : String) : String :=
  "\"" ++ String.mk (s.data.flatMap jsonEscapeChar) ++ "\""

/-- `json.dumps(\x7b"content": l\x7d, indent=2)`, the serialization the
Multi-File Export path writes into the `data.json` archive entry. -/
def dumpsContentIndent2 (l : List String) : String :=
  if l = [] then "\x7b\n  \"content\": []\n\x7d"
  else
    "\x7b\n  \"content\": [\n    " ++
      String.intercalate ",\n    " (l.map jsonStrLit) ++ "\n  ]\n\x7d"

/-- `json.dumps(\x7b"content": l\x7d)` with default separators, the compact
serialization of the same object. -/
def dumpsContentCompact (l : List String) : String :=
  if l = [] then "\x7b\"content\": []\x7d"
  else "\x7b\"content\": [" ++ String.intercalate ", " (l.map jsonStrLit) ++ "]\x7d"

/-! ## The `FileDownloader` class -/

/-- The payload held in `FileDownloader.data`: a DataFrame, a Python
string, or a bytes object. -/
inductive Payload where
  | df (d : Df)
  | text (s : String)
  | bytes (b : List Nat)
deriving DecidableEq, Repr

/-- What `st.download_button` receives as `data=`: a Python string or a
bytes object. -/
inductive Served where
  | str (s : String)
  | bytes (b : List Nat)
deriving DecidableEq, Repr

/-- The observable effect of `FileDownloader.download()`: either a download
button with data, filename and MIME type, or (DataFrame + xlsx) delegation
to `excel_downloader`. -/
inductive DlAction where
  | serve (data : Served) (filename : String) (mime : String)
  | delegateExcel (filePrefix : String)
deriving DecidableEq, Repr

/-- The `FileDownloader` object's fields. -/
structure FileDownloader where
  data : Payload
  filename : String
  file_ext : String
deriving DecidableEq, Repr

/-- ASCII lowercasing of one character, as Python's `str.lower()` maps the
format names the program uses (full Unicode case mapping is the
library's; the extension alphabet here is ASCII). -/
def lowerChar (c : Char) : Char :=
  if 'A' ≤ c ∧ c ≤ 'Z' then Char.ofNat (c.toNat + 32) else c

/-- Python's `file_ext.lower()` over the relevant alphabet. -/
def pyLower (s : String) : String :=
  String.mk (s.data.map lowerChar)

/-- `FileDownloader.__init__`: stores the payload and prefix and lowercases
the extension.  All call sites in `main` pass no extra kwargs, so
`self.kwargs` is empty. -/
def fdInit (data : Payload) (filename file_ext : String) : FileDownloader :=
  ⟨data, filename, pyLower file_ext⟩

/-- `FileDownloader._get_mime_type`. -/
def getMimeType (fd : FileDownloader) : String :=
  mimeLookup fd.file_ext

/-- Modelled from the spec: pandas `DataFrame.to_string` is an excluded
library rendering; modelled as index plus space-separated cells.  It is
reached only for DataFrame payloads with an extension other than csv/xlsx,
which no claim exercises. -/
def dfToString (d : Df) : String :=
  String.intercalate "\n"
    (String.intercalate " " d.cols ::
      (d.rows.enum.map (fun ri => toString ri.1 ++ " " ++ String.intercalate " " ri.2)))

/-- `DataFrame.to_csv(**self.kwargs)` with empty kwargs: pandas defaults
apply, i.e. comma delimiter and `index=True` — the row index (0, 1, …)
is written as an extra first column whose header is empty. -/
def toCsvIndexTrue (d : Df) : String :=
  toCsv ',' ⟨"" :: d.cols, d.rows.enum.map (fun ri => toString ri.1 :: ri.2)⟩

/-- `FileDownloader.download()`: picks the served data by payload type and
extension exactly as the source's if/elif chain does, with the
process-wide timestamp passed in as `ts` and the Pillow availability flag
as `pillow`. -/
def download (pillow : Bool) (fd : FileDownloader) (ts : String) : DlAction :=
  let newFilename := mkFilename fd.filename ts fd.file_ext
  match fd.data with
  | .df d =>
      if fd.file_ext = "csv" then
        .serve (.str (toCsvIndexTrue d)) newFilename (getMimeType fd)
      else if fd.file_ext = "xlsx" then .delegateExcel fd.filename
      else .serve (.str (dfToString d)) newFilename (getMimeType fd)
  | .text s =>
      if (fd.file_ext = "png" || fd.file_ext = "jpg") && pillow then
        .serve (.str s) newFilename (getMimeType fd)
      else .serve (.bytes (strToUtf8 s)) newFilename (getMimeType fd)
  | .bytes b =>
      if (fd.file_ext = "png" || fd.file_ext = "jpg") && pillow then
        .serve (.bytes b) newFilename (getMimeType fd)
      else
        .serve (.bytes (strToUtf8 (pyReprBytes b))) newFilename (getMimeType fd)

/-! ## `csv_downloader` -/

/-- The encodings the program's encoding selector offers. -/
inductive CsvEncoding where
  | utf8
  | ascii
  | iso8859_1
deriving DecidableEq, Repr

/-- What `csv_downloader` hands to `st.download_button`.  `encodingError`
records whether any encoding failure was signalled; the function has no
failure path, so it is always `false`. -/
structure CsvDlResult where
  served : List Nat
  filename : String
  mime : String
  encodingError : Bool
deriving DecidableEq, Repr

/-- `csv_downloader(data, filename_prefix)`: reads a delimiter and an
encoding from the two select boxes, serializes with
`data.to_csv(index=False, sep=delimiter)`, and passes the resulting Python
string to `st.download_button`, which transmits it UTF-8 encoded.  The
selected `enc` is never passed to `to_csv` or to the button — it does not
occur on the right-hand side. -/
def csv_downloader (df : Df) (delim : Char) (enc : CsvEncoding)
    (filePrefix ts : String) : CsvDlResult :=
  ⟨strToUtf8 (toCsv delim df), mkFilename filePrefix ts "csv", "text/csv", false⟩

/-! ## `excel_downloader` -/

/-- One engine attempt (`pd.ExcelWriter(output, engine=...)` plus
`data.to_excel`): the bytes the attempt appends to the shared `output`
buffer before finishing, and whether it finished without raising. -/
structure EngineRun where
  written : List Nat
  ok : Bool
deriving DecidableEq, Repr

/-- The observable result of `excel_downloader`: a download button with
bytes, the missing-packages warning, or the all-engines-failed error. -/
inductive ExcelOutcome where
  | served (b : List Nat) (filename : String)
  | missingEngines
  | allEnginesFailed
deriving DecidableEq, Repr

/-- The engine preference list `excel_downloader` builds from the two
availability flags: xlsxwriter first, then openpyxl. -/
def excelEngines (xa oa : Bool) (xw op : EngineRun) : List EngineRun :=
  (if xa then [xw] else []) ++ (if oa then [op] else [])

/-- The engine loop of `excel_downloader`: `output` is a single `BytesIO`
created before the loop, so every attempt appends to the same buffer; on
the first attempt that does not raise, `output.getvalue()` — the whole
accumulated buffer — is served. -/
def runEngines (buffer : List Nat) : List EngineRun → Option (List Nat)
  | [] => none
  | e :: es =>
      if e.ok then some (buffer ++ e.written) else runEngines (buffer ++ e.written) es

/-- `excel_downloader(data, filename_prefix)` with the engine behaviours for
this call passed in as `xw`/`op`. -/
def excel_downloader (xa oa : Bool) (xw op : EngineRun)
    (filePrefix ts : String) : ExcelOutcome :=
  let engines := excelEngines xa oa xw op
  if engines = [] then .missingEngines
  else
    match runEngines [] engines with
    | some b => .served b (mkFilename filePrefix ts "xlsx")
    | none => .allEnginesFailed

/-- The bytes a `excel_downloader` outcome exposes for download, if any. -/
def excelServedBytes : ExcelOutcome → Option (List Nat)
  | .served b _ => some b
  | _ => none

/-! ## `create_zip` and archive extraction -/

/-- One entry of the produced container: its name, its (stored) content,
and whether it was written with deflate compression. -/
structure ZipEntry where
  name : String
  content : String
  deflated : Bool
deriving DecidableEq, Repr

/-- `create_zip(files)`: writes each name→content pair of the manifest into
the container with `zipfile.ZIP_DEFLATED`, in iteration order. -/
def create_zip (files : List (String × String)) : List ZipEntry :=
  files.map (fun nc => ⟨nc.1, nc.2, true⟩)

/-- Insert-or-overwrite for extraction: a later entry with an existing name
replaces that name's content in place. -/
def zipUpsert (acc : List (String × String)) (n c : String) :
    List (String × String) :=
  if acc.any (fun p => p.1 = n) then
    acc.map (fun p => if p.1 = n then (n, c) else p)
  else acc ++ [(n, c)]

/-- Modelled from the spec: extracting the container (zipfile's contract)
decompresses every entry and materializes name→content pairs, a later
entry with the same name silently overwriting an earlier one
(last-write-wins). -/
def zipExtract (entries : List ZipEntry) : List (String × String) :=
  entries.foldl (fun acc e => zipUpsert acc e.name e.content) []

/-! ## The Image Tools path of `main` -/

/-- An in-memory bitmap, the result of a successful decode. -/
structure Bitmap where
  pixels : List Nat
deriving DecidableEq, Repr

/-- The eight-byte PNG file signature. -/
def pngSignature : List Nat := [137, 80, 78, 71, 13, 10, 26, 10]

/-- The JPEG start-of-image marker. -/
def jpegSignature : List Nat := [255, 216]

/-- Modelled from the spec: Pillow's `image.save(buffer, format=PNG)` emits
a PNG container — the PNG signature followed by codec data for the
bitmap. -/
def pngEncode (bm : Bitmap) : List Nat := pngSignature ++ bm.pixels

/-- Modelled from the spec: a JPEG container emitted by any JPEG encoder
starts with the JPEG start-of-image marker. -/
def jpegEncode (bm : Bitmap) : List Nat := jpegSignature ++ bm.pixels

/-- The Image Tools branch of `main` for an uploaded file: `Image.open`
either decodes to a bitmap or raises (in which case no download button is
rendered); on success the bitmap is saved once with `format=PNG` and the
same buffer is handed to both the png and the jpg `FileDownloader`. -/
def imageToolsDownloads (pillow : Bool) (decoded : Option Bitmap)
    (filePrefix ts : String) : List DlAction :=
  if pillow then
    match decoded with
    | none => []
    | some bm =>
        [download true (fdInit (.bytes (pngEncode bm)) filePrefix "png") ts,
         download true (fdInit (.bytes (pngEncode bm)) filePrefix "jpg") ts]
  else []

/-! ## The Multi-File Export path of `main` -/

/-- Python's `data_input.split('\\n')`: split on each newline character,
keeping empty pieces (`""` splits to `[""]`). -/
def pySplitLines : List Char → List (List Char)
  | [] => [[]]
  | c :: rest =>
    if c = '\n' then [] :: pySplitLines rest
    else
      match pySplitLines rest with
      | [] => [[c]]
      | l :: ls => (c :: l) :: ls

/-- `t.split('\\n')` on strings. -/
def pySplitNl (s : String) : List String :=
  (pySplitLines s.data).map String.mk

/-- Python's `line.split()`: split on runs of whitespace, dropping empty
pieces. -/
def pySplitWs (s : String) : List String :=
  (s.split (fun c =>
      c = ' ' || c = '\t' || c = '\x0b' || c = '\x0c' || c = '\r' || c = '\n')).filter
    (fun t => t ≠ "")

/-- Modelled from pandas' contract for `pd.DataFrame(rows)` over ragged
rows: columns are 0..w-1 for w the longest row, short rows are padded with
NaN, and `to_csv(index=False)` renders NaN as an empty field. -/
def multiCsvDf (t : String) : Df :=
  ⟨(List.range (((pySplitNl t).map pySplitWs).foldl (fun m r => max m r.length) 0)).map
      toString,
   ((pySplitNl t).map pySplitWs).map
     (fun r =>
       r ++ List.replicate
         ((((pySplitNl t).map pySplitWs).foldl (fun m r => max m r.length) 0) -
           r.length) "")⟩

/-- The `files_to_zip` dictionary the Multi-File Export branch builds from
the text area's content. -/
def multiFilesToZip (t : String) : List (String × String) :=
  [("data.txt", t),
   ("data.csv", toCsv ',' (multiCsvDf t)),
   ("data.json", dumpsContentIndent2 (pySplitNl t))]

/-- The zip container the Multi-File Export branch serves. -/
def multiFileExportZip (t : String) : List ZipEntry :=
  create_zip (multiFilesToZip t)

/-! ## Column selection (the Advanced Export path of `main`) -/

/-- `df[selected_columns]`: a DataFrame whose columns are exactly the
selection, in the selection's order, with each cell taken from the source
row at that column's position in the source schema. -/
def selectCols (d : Df) (sel : List String) : Df :=
  ⟨sel,
   d.rows.map (fun r =>
     sel.map (fun c => (((d.cols.indexOf? c).bind (fun i => r[i]?)).getD "")))⟩

/-- The first record line of a serialized CSV document. -/
def firstLine (s : String) : String :=
  String.mk (s.data.takeWhile (fun c => c ≠ '\n'))

/-! ## General lemmas -/

/-- Every character contributes at least one UTF-8 byte. -/
theorem one_le_utf8Bytes_length (c : Char) : 1 ≤ (utf8Bytes c).length := by
  unfold utf8Bytes
  split
  · simp
  · split
    · simp
    · split <;> simp

/-- A string's UTF-8 encoding is at least as long as its character list. -/
theorem length_le_strToUtf8_length (s : String) :
    s.data.length ≤ (strToUtf8 s).length := by
  unfold strToUtf8
  induction s.data with
  | nil => simp
  | cons c cs ih =>
      simp only [List.flatMap_cons, List.length_append, List.length_cons]
      have := one_le_utf8Bytes_length c
      omega

/-- Rebuilding a string from its character list is the identity. -/
theorem strMk_data (s : String) : String.mk s.data = s := rfl

/-- `takeWhile`/`dropWhile` split an append exactly at the first failing
character. -/
theorem takeWhile_dropWhile_append {p : Char → Bool} (f rest : List Char)
    (hf : ∀ c ∈ f, p c = true)
    (hrest : rest = [] ∨ ∃ c cs, rest = c :: cs ∧ p c = false) :
    (f ++ rest).takeWhile p = f ∧ (f ++ rest).dropWhile p = rest := by
  induction f with
  | nil =>
      rcases hrest with h | ⟨c, cs, h, hc⟩
      · subst h; simp
      · subst h; simp [hc]
  | cons a f ih =>
      have ha : p a = true := hf a (by simp)
      have hi := ih (fun c hc => hf c (by simp [hc]))
      simp [ha, hi.1, hi.2]

/-- The extension of any filename built as `P ++ "." ++ E`, for `E` free of
dots, is `E` — whatever `P` contains. -/
theorem fileExtension_append (p e : List Char) (he : ∀ c ∈ e, c ≠ '.') :
    fileExtension (String.mk (p ++ '.' :: e)) = String.mk e := by
  unfold fileExtension
  have hform : (p ++ '.' :: e).reverse = e.reverse ++ '.' :: p.reverse := by
    simp
  have hall : ∀ c ∈ e.reverse, (fun c => decide (c ≠ '.')) c = true := by
    intro c hc
    simp only [decide_eq_true_eq]
    exact he c (List.mem_reverse.mp hc)
  have hsplit := takeWhile_dropWhile_append (p := fun c => decide (c ≠ '.'))
    e.reverse ('.' :: p.reverse) hall
    (Or.inr ⟨'.', p.reverse, rfl, by simp⟩)
  show String.mk (((p ++ '.' :: e).reverse.takeWhile _).reverse) = _
  rw [hform, hsplit.1, List.reverse_reverse]

/-- The extension of every filename the program builds is the extension it
appended, provided that extension contains no dot. -/
theorem fileExtension_mkFilename (fp ts e : String) (he : '.' ∉ e.data) :
    fileExtension (mkFilename fp ts e) = e := by
  have hdata : (mkFilename fp ts e).data
      = (fp.data ++ '_' :: ts.data) ++ '.' :: e.data := by
    simp [mkFilename, String.data_append]
  calc fileExtension (mkFilename fp ts e)
      = fileExtension (String.mk ((fp.data ++ '_' :: ts.data) ++ '.' :: e.data)) := by
        rw [← hdata, strMk_data]
    _ = String.mk e.data := fileExtension_append _ _ (fun c hc h => he (h ▸ hc))
    _ = e := strMk_data e

/-- The code's MIME dictionary agrees with the spec's fixed lookup table on
every extension, the unrecognized ones included. -/
theorem mimeLookup_eq_specMime (e : String) : mimeLookup e = specMime e := by
  by_cases h1 : e = "txt"
  · simp [mimeLookup, mimeTypes, List.lookup, specMime, h1]
  · by_cases h2 : e = "csv"
    · simp [mimeLookup, mimeTypes, List.lookup, specMime, h1, h2]
    · by_cases h3 : e = "json"
      · simp [mimeLookup, mimeTypes, List.lookup, specMime, h1, h2, h3]
      · by_cases h4 : e = "xlsx"
        · simp [mimeLookup, mimeTypes, List.lookup, specMime, h1, h2, h3, h4]
        · by_cases h5 : e = "png"
          · simp [mimeLookup, mimeTypes, List.lookup, specMime, h1, h2, h3, h4, h5]
          · by_cases h6 : e = "jpg"
            · simp [mimeLookup, mimeTypes, List.lookup, specMime,
                h1, h2, h3, h4, h5, h6]
            · by_cases h7 : e = "zip"
              · simp [mimeLookup, mimeTypes, List.lookup, specMime,
                  h1, h2, h3, h4, h5, h6, h7]
              · have e1 : (e == "txt") = false := beq_eq_false_iff_ne.mpr h1
                have e2 : (e == "csv") = false := beq_eq_false_iff_ne.mpr h2
                have e3 : (e == "json") = false := beq_eq_false_iff_ne.mpr h3
                have e4 : (e == "xlsx") = false := beq_eq_false_iff_ne.mpr h4
                have e5 : (e == "png") = false := beq_eq_false_iff_ne.mpr h5
                have e6 : (e == "jpg") = false := beq_eq_false_iff_ne.mpr h6
                have e7 : (e == "zip") = false := beq_eq_false_iff_ne.mpr h7
                simp [mimeLookup, mimeTypes, List.lookup, specMime,
                  e1, e2, e3, e4, e5, e6, e7, h1, h2, h3, h4, h5, h6, h7]

/-- Every download button `FileDownloader.download` renders carries the
filename `prefix_timestr.ext` and the dictionary MIME type. -/
theorem download_serve_shape (pillow : Bool) (fd : FileDownloader) (ts : String)
    (data : Served) (fn mime : String)
    (hserve : download pillow fd ts = .serve data fn mime) :
    fn = mkFilename fd.filename ts fd.file_ext ∧ mime = mimeLookup fd.file_ext := by
  unfold download at hserve
  rcases fd with ⟨p, fname, fext⟩
  rcases p with d | s | b <;> simp only at hserve
  · split at hserve
    · exact ⟨(DlAction.serve.injEq ..).mp hserve |>.2.1.symm,
        (DlAction.serve.injEq ..).mp hserve |>.2.2.symm⟩
    · split at hserve
      · exact absurd hserve (by simp)
      · exact ⟨(DlAction.serve.injEq ..).mp hserve |>.2.1.symm,
          (DlAction.serve.injEq ..).mp hserve |>.2.2.symm⟩
  · split at hserve <;>
      exact ⟨(DlAction.serve.injEq ..).mp hserve |>.2.1.symm,
        (DlAction.serve.injEq ..).mp hserve |>.2.2.symm⟩
  · split at hserve <;>
      exact ⟨(DlAction.serve.injEq ..).mp hserve |>.2.1.symm,
        (DlAction.serve.injEq ..).mp hserve |>.2.2.symm⟩

/-- C1: for every export request served by `FileDownloader.download`, the
MIME type equals the spec's fixed lookup (txt→text/plain, csv→text/csv,
json→application/json, xlsx→application/vnd.openxmlformats-officedocument.spreadsheetml.sheet,
png→image/png, jpg→image/jpeg, zip→application/zip, anything else→
application/octet-stream) applied to the request's target format, and the
filename's extension equals the target format. -/
theorem C1_mime_and_extension (pillow : Bool) (p : Payload) (fp ext ts : String)
    (data : Served) (fn mime : String)
    (hdot : '.' ∉ (pyLower ext).data)
    (hserve : download pillow (fdInit p fp ext) ts = .serve data fn mime) :
    mime = specMime (pyLower ext) ∧ fileExtension fn = pyLower ext := by
  have hshape := download_serve_shape pillow (fdInit p fp ext) ts data fn mime hserve
  constructor
  · rw [hshape.2]
    exact mimeLookup_eq_specMime _
  · rw [hshape.1]
    exact fileExtension_mkFilename _ _ _ hdot

/-- Witness for C1 at a concrete request: text payload, target format
`json`. -/
theorem C1_witness :
    '.' ∉ (pyLower "json").data ∧
      ("application/json" : String) = specMime (pyLower "json") ∧
        fileExtension "document_20240101-000000.json" = pyLower "json" :=
  ⟨by decide,
   C1_mime_and_extension true (.text "hi") "document" "json" "20240101-000000"
     (.bytes (strToUtf8 "hi")) "document_20240101-000000.json" "application/json"
     (by decide) (by decide)⟩

/-! ## Generic length lemmas for byte renderings -/

/-- A flatMap whose pieces are all nonempty is at least as long as its
input. -/
theorem length_le_flatMap_length {α β : Type} (f : α → List β)
    (h : ∀ a, 1 ≤ (f a).length) (l : List α) :
    l.length ≤ (l.flatMap f).length := by
  induction l with
  | nil => simp
  | cons a l ih =>
      simp only [List.flatMap_cons, List.length_append, List.length_cons]
      have := h a
      omega

/-- Every byte's rendering under Python's bytes `repr` is nonempty. -/
theorem one_le_bytesReprEscape_length (q x : Nat) :
    1 ≤ (bytesReprEscape q x).length := by
  unfold bytesReprEscape
  repeat' split
  all_goals simp

/-- Python's `repr` of a bytes object is strictly longer than the bytes
themselves: `b`, the two quotes, and at least one character per byte. -/
theorem pyReprBytes_length (b : List Nat) :
    b.length + 3 ≤ (pyReprBytes b).data.length := by
  show b.length + 3 ≤ (List.length _)
  simp only [pyReprBytes, List.length_cons, List.length_append, List.length_singleton]
  have := length_le_flatMap_length (bytesReprEscape (bytesReprQuote b))
    (one_le_bytesReprEscape_length (bytesReprQuote b)) b
  omega

/-- C10: for a bytes payload downloaded with target format png or jpg, the
Pillow flag decides the served data — when set, the payload bytes pass
through unchanged; when unset, the served bytes are the UTF-8 encoding of
`str(payload)`, Python's `b'...'` rendering, which is strictly longer than
(hence never equal to) the raw image bytes. -/
theorem C10_png_jpg_pillow_flag (b : List Nat) (fp ts : String) (ext : String)
    (hext : ext = "png" ∨ ext = "jpg") :
    (download true (fdInit (.bytes b) fp ext) ts
        = .serve (.bytes b) (mkFilename fp ts ext) (mimeLookup ext)) ∧
    (download false (fdInit (.bytes b) fp ext) ts
        = .serve (.bytes (strToUtf8 (pyReprBytes b))) (mkFilename fp ts ext)
            (mimeLookup ext)) ∧
    b.length < (strToUtf8 (pyReprBytes b)).length := by
  have hlen : b.length < (strToUtf8 (pyReprBytes b)).length := by
    have h1 := pyReprBytes_length b
    have h2 := length_le_strToUtf8_length (pyReprBytes b)
    omega
  rcases hext with h | h <;> subst h
  · exact ⟨rfl, rfl, hlen⟩
  · exact ⟨rfl, rfl, hlen⟩

/-- Witness for C10 at a concrete bytes payload and format `jpg`: with the
Pillow flag unset the served bytes are the encoded `repr`, not the
payload. -/
theorem C10_witness :
    ("jpg" = "png" ∨ "jpg" = "jpg") ∧
      download false (fdInit (.bytes [137, 80, 78, 71]) "image" "jpg") "ts0"
        = .serve (.bytes (strToUtf8 (pyReprBytes [137, 80, 78, 71])))
            (mkFilename "image" "ts0" "jpg") (mimeLookup "jpg") :=
  ⟨Or.inr rfl,
   (C10_png_jpg_pillow_flag [137, 80, 78, 71] "image" "ts0" "jpg" (Or.inr rfl)).2.1⟩

/-- C2 (amended): a text payload downloaded via `FileDownloader` with
target format json produces the UTF-8 bytes of the raw text itself; the
JSON wrap appears only in the Multi-File Export path, whose `data.json`
archive entry is `json.dumps` of the object mapping "content" to the text
split on line breaks, serialized with 2-space indent. -/
theorem C2_json_amended (t fp ts : String) (pillow : Bool) :
    download pillow (fdInit (.text t) fp "json") ts
      = .serve (.bytes (strToUtf8 t)) (mkFilename fp ts "json") "application/json" ∧
    (multiFilesToZip t).lookup "data.json"
      = some (dumpsContentIndent2 (pySplitNl t)) := by
  constructor
  · rfl
  · rfl

/-- C2 as stated is false at the concrete text "hello": the json download
serves the bytes of "hello" itself, which differ from the UTF-8 encoding
of the JSON object (both the program's indented serialization and the
compact one), and do not even begin with an opening brace, as every
serialization of a JSON object must. -/
theorem C2_counterexample :
    download true (fdInit (.text "hello") "document" "json") "20240101-000000"
      = .serve (.bytes (strToUtf8 "hello")) "document_20240101-000000.json"
          "application/json" ∧
    strToUtf8 "hello" ≠ strToUtf8 (dumpsContentIndent2 (pySplitNl "hello")) ∧
    strToUtf8 "hello" ≠ strToUtf8 (dumpsContentCompact (pySplitNl "hello")) ∧
    (strToUtf8 "hello").head? ≠ some 123 := by
  exact ⟨rfl, by decide, by decide, by decide⟩

/-- C4: the claim fails on the code.  `df[["a","c"]]` does give exactly the
selected columns in order, but the Advanced Export path serializes through
`FileDownloader.download`, whose `to_csv(**self.kwargs)` call passes no
`index=False`; pandas' default writes the row index as an extra leading
column with an empty header, so the header line is ",a,c", not "a,c". -/
theorem C4_index_column_in_header :
    selectCols ⟨["a", "b", "c"], [["1", "2", "3"]]⟩ ["a", "c"]
      = ⟨["a", "c"], [["1", "3"]]⟩ ∧
    download true
        (fdInit (.df (selectCols ⟨["a", "b", "c"], [["1", "2", "3"]]⟩ ["a", "c"]))
          "data_export_filtered" "csv") "ts0"
      = .serve (.str ",a,c\n0,1,3\n")
          (mkFilename "data_export_filtered" "ts0" "csv") "text/csv" ∧
    firstLine ",a,c\n0,1,3\n" = ",a,c" ∧
    (",a,c" : String) ≠ "a,c" := by
  exact ⟨by decide, by decide, by decide, by decide⟩

/-- C5: the claim fails on the code.  `csv_downloader` serializes with the
chosen delimiter, but the encoding read from the second select box is
never used: the serialized text is handed to the download button and
transmitted UTF-8 regardless, and no `EncodingError` path exists — shown
here on a dataset containing "é" with `ascii` selected, where the served
bytes contain a byte above 127 and no error is signalled. -/
theorem C5_encoding_ignored :
    (∀ df delim e1 e2 fp ts,
      csv_downloader df delim e1 fp ts = csv_downloader df delim e2 fp ts) ∧
    (csv_downloader ⟨["a"], [["é"]]⟩ ',' .ascii "data" "ts0").encodingError = false ∧
    (csv_downloader ⟨["a"], [["é"]]⟩ ',' .ascii "data" "ts0").served.any
        (fun x => decide (127 < x)) = true ∧
    (csv_downloader ⟨["a"], [["é"]]⟩ ',' .ascii "data" "ts0").served
      = strToUtf8 (toCsv ',' ⟨["a"], [["é"]]⟩) := by
  exact ⟨fun _ _ _ _ _ _ => rfl, rfl, by decide, rfl⟩

/-- C6: `excel_downloader` tries xlsxwriter first and falls through to
openpyxl on failure; with no engine available it returns after the
install warning, with every available engine failing it reports the error
— in both cases no bytes are exposed for download. -/
theorem C6_excel_engine_fallback (xa oa : Bool) (xw op : EngineRun) (fp ts : String) :
    (xa = true → xw.ok = true →
      excel_downloader xa oa xw op fp ts
        = .served xw.written (mkFilename fp ts "xlsx")) ∧
    (xa = true → xw.ok = false → oa = true → op.ok = true →
      excel_downloader xa oa xw op fp ts
        = .served (xw.written ++ op.written) (mkFilename fp ts "xlsx")) ∧
    (xa = false → oa = false →
      excel_downloader xa oa xw op fp ts = .missingEngines) ∧
    ((xa = true ∨ oa = true) → (xa = true → xw.ok = false) →
      (oa = true → op.ok = false) →
      excel_downloader xa oa xw op fp ts = .allEnginesFailed) ∧
    ((xa = true → xw.ok = false) → (oa = true → op.ok = false) →
      excelServedBytes (excel_downloader xa oa xw op fp ts) = none) := by
  obtain ⟨w1, o1⟩ := xw
  obtain ⟨w2, o2⟩ := op
  rcases xa <;> rcases oa <;> rcases o1 <;> rcases o2 <;>
    simp [excel_downloader, excelEngines, runEngines, excelServedBytes]

/-- Witness for C6: xlsxwriter available but failing, openpyxl available
and succeeding — the secondary engine serves the download. -/
theorem C6_witness :
    excel_downloader true true ⟨[1], false⟩ ⟨[2], true⟩ "data" "ts0"
      = .served ([1] ++ [2]) (mkFilename "data" "ts0" "xlsx") :=
  (C6_excel_engine_fallback true true ⟨[1], false⟩ ⟨[2], true⟩ "data" "ts0").2.1
    rfl rfl rfl rfl

/-- C9: the claim's stale-byte clause fails on the code.  All failures are
reported without aborting, but `output = BytesIO()` is created once and
shared by every engine attempt, so when the first engine writes partial
bytes before raising, the bytes served after the second engine succeeds
still carry that stale prefix — a partial artifact is exposed. -/
theorem C9_stale_bytes_served :
    excel_downloader true true ⟨[1, 2, 3], false⟩ ⟨[80, 75], true⟩ "data" "ts0"
      = .served ([1, 2, 3] ++ [80, 75]) (mkFilename "data" "ts0" "xlsx") ∧
    excelServedBytes
        (excel_downloader true true ⟨[1, 2, 3], false⟩ ⟨[80, 75], true⟩ "data" "ts0")
      ≠ some [80, 75] := by
  exact ⟨rfl, by decide⟩

/-- C7: the claim's re-encode clause fails on the code.  The Image Tools
path saves the decoded bitmap once with `format=PNG` and hands that same
buffer to both the png and the jpg `FileDownloader`, so the jpg download
serves a PNG container (with `.jpg` filename and `image/jpeg` MIME type)
— no JPEG encoder output can equal it, since every JPEG container starts
with the start-of-image marker, not the PNG signature.  On decode failure
no download is rendered at all. -/
theorem C7_jpg_download_is_png :
    (∀ fp ts bm, imageToolsDownloads true (some bm) fp ts
        = [.serve (.bytes (pngEncode bm)) (mkFilename fp ts "png") "image/png",
           .serve (.bytes (pngEncode bm)) (mkFilename fp ts "jpg") "image/jpeg"]) ∧
    (∀ fp ts, imageToolsDownloads true none fp ts = []) ∧
    ¬ ∃ bm2, pngEncode ⟨[0]⟩ = jpegEncode bm2 := by
  refine ⟨fun fp ts bm => rfl, fun fp ts => rfl, ?_⟩
  rintro ⟨bm2, h⟩
  have := congrArg List.head? h
  simp [pngEncode, jpegEncode, pngSignature, jpegSignature] at this

/-- Folding `zipUpsert` over pairs with pairwise-distinct names, none of
which occurs in the accumulator, appends them in order. -/
theorem foldl_zipUpsert_nodup (m : List (String × String)) :
    ∀ acc : List (String × String), (m.map Prod.fst).Nodup →
      (∀ p ∈ m, ∀ q ∈ acc, p.1 ≠ q.1) →
      List.foldl (fun a e => zipUpsert a e.1 e.2) acc m = acc ++ m := by
  induction m with
  | nil => intro acc _ _; simp
  | cons nc m ih =>
      intro acc hn hdisj
      have hany : acc.any (fun p => p.1 = nc.1) = false := by
        rw [List.any_eq_false]
        intro q hq
        simp only [decide_eq_true_eq]
        exact fun h => hdisj nc (by simp) q hq h.symm
      have hstep : zipUpsert acc nc.1 nc.2 = acc ++ [(nc.1, nc.2)] := by
        simp [zipUpsert, hany]
      have hn' : (nc.1 :: m.map Prod.fst).Nodup := by simpa using hn
      have hn2 : (m.map Prod.fst).Nodup := (List.nodup_cons.mp hn').2
      have hni : nc.1 ∉ m.map Prod.fst := (List.nodup_cons.mp hn').1
      have hdisj2 : ∀ p ∈ m, ∀ q ∈ acc ++ [(nc.1, nc.2)], p.1 ≠ q.1 := by
        intro p hp q hq
        rcases List.mem_append.mp hq with h | h
        · exact hdisj p (by simp [hp]) q h
        · have : q = (nc.1, nc.2) := by simpa using h
          subst this
          intro hcontra
          exact hni (hcontra ▸ List.mem_map_of_mem Prod.fst hp)
      calc List.foldl (fun a e => zipUpsert a e.1 e.2) acc (nc :: m)
          = List.foldl (fun a e => zipUpsert a e.1 e.2) (acc ++ [(nc.1, nc.2)]) m := by
            simp [hstep]
        _ = (acc ++ [(nc.1, nc.2)]) ++ m := ih _ hn2 hdisj2
        _ = acc ++ nc :: m := by simp

/-- C8: extracting the container `create_zip` builds from a manifest with
unique entry names recovers exactly the manifest's name→content pairs,
every entry is written deflate-compressed, the spec's two-entry example
extracts to exactly those pairs, and writing the same entry name twice
leaves the later content (last-write-wins). -/
theorem C8_create_zip_roundtrip (m : List (String × String))
    (hn : (m.map Prod.fst).Nodup) :
    zipExtract (create_zip m) = m ∧
    (∀ e ∈ create_zip m, e.deflated = true) ∧
    zipExtract (create_zip
        [("data.txt", "hello"), ("data.json", "\x7b\"content\":[\"hello\"]\x7d")])
      = [("data.txt", "hello"), ("data.json", "\x7b\"content\":[\"hello\"]\x7d")] ∧
    (∀ n c1 c2, zipExtract (create_zip [(n, c1), (n, c2)]) = [(n, c2)]) := by
  refine ⟨?_, ?_, by decide, ?_⟩
  · show List.foldl _ [] (m.map fun nc => ZipEntry.mk nc.1 nc.2 true) = m
    rw [List.foldl_map]
    exact foldl_zipUpsert_nodup m [] hn (by simp)
  · intro e he
    rcases List.mem_map.mp he with ⟨nc, _, rfl⟩
    rfl
  · intro n c1 c2
    simp [zipExtract, create_zip, zipUpsert]

/-- Witness for C8 at the spec's example manifest, whose two entry names
are distinct. -/
theorem C8_witness :
    ((([("data.txt", "hello"),
        ("data.json", "\x7b\"content\":[\"hello\"]\x7d")] :
          List (String × String)).map Prod.fst).Nodup) ∧
    zipExtract (create_zip
        [("data.txt", "hello"), ("data.json", "\x7b\"content\":[\"hello\"]\x7d")])
      = [("data.txt", "hello"), ("data.json", "\x7b\"content\":[\"hello\"]\x7d")] :=
  ⟨by decide,
   (C8_create_zip_roundtrip
      [("data.txt", "hello"), ("data.json", "\x7b\"content\":[\"hello\"]\x7d")]
      (by decide)).1⟩

/-! ## The CSV round trip -/

/-- Unfolding equation for `parseFieldQ` on a nonempty input. -/
theorem parseFieldQ_cons (acc : List Char) (c : Char) (cs : List Char) :
    parseFieldQ acc (c :: cs)
      = if c = '"' then
          (match cs with
           | [] => some (acc, [])
           | c2 :: cs2 =>
             if c2 = '"' then parseFieldQ (acc ++ ['"']) cs2
             else some (acc, c2 :: cs2))
        else parseFieldQ (acc ++ [c]) cs := by
  rw [parseFieldQ.eq_def]

/-- Parsing a quoted-field body consumes exactly the escaped field and
stops at the closing quote, whatever follows it (as long as what follows
does not begin with another quote). -/
theorem parseFieldQ_escQ (f : List Char) :
    ∀ (acc rest : List Char), (∀ c cs, rest = c :: cs → c ≠ '"') →
      parseFieldQ acc (escQ f ++ '"' :: rest) = some (acc ++ f, rest) := by
  induction f with
  | nil =>
      intro acc rest hr
      cases rest with
      | nil => simp [parseFieldQ, escQ]
      | cons c cs =>
          have hc : c ≠ '"' := hr c cs rfl
          simp [parseFieldQ, escQ, hc]
  | cons a f ih =>
      intro acc rest hr
      by_cases ha : a = '"'
      · subst ha
        have hform : escQ ('"' :: f) ++ '"' :: rest
            = '"' :: '"' :: (escQ f ++ '"' :: rest) := by
          simp [escQ]
        rw [hform]
        simp only [parseFieldQ, if_pos rfl]
        rw [ih (acc ++ ['"']) rest hr]
        simp
      · have hform : escQ (a :: f) ++ '"' :: rest
            = a :: (escQ f ++ '"' :: rest) := by
          simp [escQ, ha]
        rw [hform, parseFieldQ_cons, if_neg ha]
        rw [ih (acc ++ [a]) rest hr]
        simp

/-- A character that terminates a field (the delimiter or a newline) fails
the unquoted-field predicate. -/
theorem term_char_fails (d c : Char) (h : c = d ∨ c = '\n') :
    (!(c = d || c = '\n') : Bool) = false := by
  rcases h with rfl | rfl <;> simp

/-- `parseFieldU` splits its input exactly at the first terminator. -/
theorem parseFieldU_eq (d : Char) (f rest : List Char)
    (hf : ∀ c ∈ f, (!(c = d || c = '\n') : Bool) = true)
    (hrest : rest = [] ∨ ∃ c cs, rest = c :: cs ∧ (!(c = d || c = '\n') : Bool) = false) :
    parseFieldU d (f ++ rest) = (f, rest) := by
  have h := takeWhile_dropWhile_append (p := fun c => !(c = d || c = '\n')) f rest hf hrest
  unfold parseFieldU
  rw [h.1, h.2]

/-- Parsing one field of a serialized record consumes exactly the encoded
field and leaves the terminator (delimiter or newline) in place. -/
theorem parseOneField_enc (d : Char) (hq : d ≠ '"') (f : String) (rest : List Char)
    (hhead : ∀ c cs, rest = c :: cs → (c = d ∨ c = '\n')) :
    parseOneField d (encFieldChars d f ++ rest) = some (f.data, rest) := by
  by_cases hnq : needsQuote d f = true
  · have hform : encFieldChars d f ++ rest = '"' :: (escQ f.data ++ '"' :: rest) := by
      simp [encFieldChars, hnq]
    rw [hform]
    have hr : ∀ c cs, rest = c :: cs → c ≠ '"' := by
      intro c cs h
      rcases hhead c cs h with rfl | rfl
      · exact hq
      · decide
    show (if ('"' : Char) = '"' then parseFieldQ [] (escQ f.data ++ '"' :: rest)
        else some (parseFieldU d ('"' :: (escQ f.data ++ '"' :: rest)))) = _
    rw [if_pos rfl, parseFieldQ_escQ f.data [] rest hr]
    simp
  · have hform : encFieldChars d f ++ rest = f.data ++ rest := by
      simp [encFieldChars, hnq]
    rw [hform]
    have hne : ∀ c ∈ f.data, ¬c = d ∧ ¬c = '"' ∧ ¬c = '\n' ∧ ¬c = '\x0d' := by
      intro c hc
      have hsc : specialChar d c = false := by
        cases h2 : specialChar d c
        · rfl
        · exact absurd (List.any_eq_true.mpr ⟨c, hc, h2⟩) hnq
      simp only [specialChar, Bool.or_eq_false_iff, decide_eq_false_iff_not] at hsc
      exact ⟨hsc.1.1.1, hsc.1.1.2, hsc.1.2, hsc.2⟩
    have hf : ∀ c ∈ f.data, (!(c = d || c = '\n') : Bool) = true := by
      intro c hc
      have h := hne c hc
      simp [h.1, h.2.2.1]
    have hrest2 : rest = [] ∨
        ∃ c cs, rest = c :: cs ∧ (!(c = d || c = '\n') : Bool) = false := by
      cases rest with
      | nil => exact Or.inl rfl
      | cons c cs => exact Or.inr ⟨c, cs, rfl, term_char_fails d c (hhead c cs rfl)⟩
    cases hfd : f.data with
    | nil =>
        simp only [List.nil_append]
        cases rest with
        | nil => rfl
        | cons c cs =>
            have hc := hhead c cs rfl
            have hcq : c ≠ '"' := by
              rcases hc with rfl | rfl
              · exact hq
              · decide
            show (if c = '"' then parseFieldQ [] cs
                else some (parseFieldU d (c :: cs))) = _
            rw [if_neg hcq]
            have hpf := parseFieldU_eq d [] (c :: cs) (by simp)
              (Or.inr ⟨c, cs, rfl, term_char_fails d c hc⟩)
            rw [List.nil_append] at hpf
            rw [hpf]
    | cons a fd =>
        have haq : a ≠ '"' := by
          have h := hne a (by rw [hfd]; simp)
          exact h.2.1
        show (if a = '"' then parseFieldQ [] (fd ++ rest)
            else some (parseFieldU d (a :: (fd ++ rest)))) = _
        rw [if_neg haq]
        have hf2 : ∀ c ∈ a :: fd, (!(c = d || c = '\n') : Bool) = true := by
          rw [← hfd]; exact hf
        have hpf := parseFieldU_eq d (a :: fd) rest hf2 hrest2
        rw [List.cons_append] at hpf
        rw [hpf]

/-- Unfolding equation for `parseRecFuel` with positive fuel. -/
theorem parseRecFuel_succ (d : Char) (n : Nat) (cs : List Char) :
    parseRecFuel d (n + 1) cs
      = match parseOneField d cs with
        | none => none
        | some (f, rest) =>
          match rest with
          | [] => some ([String.mk f], [])
          | c :: rest2 =>
            if c = d then
              match parseRecFuel d n rest2 with
              | none => none
              | some (fs, r) => some (String.mk f :: fs, r)
            else if c = '\n' then some ([String.mk f], rest2)
            else none := by
  rw [parseRecFuel.eq_def]

/-- Parsing a serialized record with enough fuel recovers exactly its
fields and leaves the input following the record's newline. -/
theorem parseRec_enc (d : Char) (hq : d ≠ '"') (hnl : d ≠ '\n') :
    ∀ (r : List String) (n : Nat) (rest : List Char), r ≠ [] → r.length ≤ n →
      parseRecFuel d n (encRowChars d r ++ '\n' :: rest) = some (r, rest) := by
  intro r
  induction r with
  | nil => intro n rest h _; exact absurd rfl h
  | cons f r ih =>
      intro n rest _ hlen
      obtain ⟨m, rfl⟩ : ∃ m, n = m + 1 := by
        cases n with
        | zero => simp at hlen
        | succ m => exact ⟨m, rfl⟩
      cases r with
      | nil =>
          have henc : encRowChars d [f] ++ '\n' :: rest
              = encFieldChars d f ++ '\n' :: rest := rfl
          rw [henc, parseRecFuel_succ,
            parseOneField_enc d hq f ('\n' :: rest)
              (by intro c cs h; injection h with h1 _; exact Or.inr h1.symm)]
          have hdn : ¬('\n' : Char) = d := Ne.symm hnl
          simp [hdn, strMk_data]
      | cons f2 fs =>
          have henc : encRowChars d (f :: f2 :: fs) ++ '\n' :: rest
              = encFieldChars d f
                  ++ d :: (encRowChars d (f2 :: fs) ++ '\n' :: rest) := by
            show (encFieldChars d f ++ d :: encRowChars d (f2 :: fs)) ++ '\n' :: rest = _
            simp
          rw [henc, parseRecFuel_succ,
            parseOneField_enc d hq f (d :: (encRowChars d (f2 :: fs) ++ '\n' :: rest))
              (by intro c cs h; injection h with h1 _; exact Or.inl h1.symm)]
          have hrec := ih m rest (by simp) (by simp at hlen ⊢; omega)
          simp [hrec, strMk_data]

/-- A record of n fields serializes to at least n−1 characters (its
delimiters). -/
theorem encRow_length_ge (d : Char) :
    ∀ r : List String, r.length ≤ (encRowChars d r).length + 1 := by
  intro r
  induction r with
  | nil => simp [encRowChars]
  | cons f r ih =>
      cases r with
      | nil => simp [encRowChars]
      | cons f2 fs =>
          have hrw : encRowChars d (f :: f2 :: fs)
              = encFieldChars d f ++ d :: encRowChars d (f2 :: fs) := rfl
          rw [hrw]
          simp only [List.length_append, List.length_cons] at ih ⊢
          omega

/-- A document of n records serializes to at least n characters (its
newlines). -/
theorem rows_le_flatten_length (d : Char) :
    ∀ rows : List (List String),
      rows.length
        ≤ (List.flatten (rows.map (fun r => encRowChars d r ++ ['\n']))).length := by
  intro rows
  induction rows with
  | nil => simp
  | cons r rows ih =>
      simp only [List.map_cons, List.flatten_cons, List.length_append,
        List.length_cons, List.length_nil]
      omega

/-- Unfolding equation for `parseDocFuel` with positive fuel. -/
theorem parseDocFuel_succ (d : Char) (n : Nat) (cs : List Char) :
    parseDocFuel d (n + 1) cs
      = if cs = [] then some []
        else
          match parseRecFuel d (cs.length + 1) cs with
          | none => none
          | some (r, rest) =>
            match parseDocFuel d n rest with
            | none => none
            | some rs => some (r :: rs) := by
  rw [parseDocFuel.eq_def]

/-- Parsing a serialized sequence of records with enough fuel recovers
exactly the records. -/
theorem parseDoc_enc (d : Char) (hq : d ≠ '"') (hnl : d ≠ '\n') :
    ∀ (rows : List (List String)) (n : Nat), (∀ r ∈ rows, r ≠ []) →
      rows.length ≤ n →
      parseDocFuel d n (List.flatten (rows.map (fun r => encRowChars d r ++ ['\n'])))
        = some rows := by
  intro rows
  induction rows with
  | nil =>
      intro n _ _
      cases n with
      | zero => simp [parseDocFuel]
      | succ m => simp [parseDocFuel]
  | cons r rows ih =>
      intro n hne hlen
      obtain ⟨m, rfl⟩ : ∃ m, n = m + 1 := by
        cases n with
        | zero => simp at hlen
        | succ m => exact ⟨m, rfl⟩
      have hform : List.flatten ((r :: rows).map (fun r => encRowChars d r ++ ['\n']))
          = encRowChars d r
              ++ '\n' :: List.flatten (rows.map (fun r => encRowChars d r ++ ['\n'])) := by
        simp
      rw [hform, parseDocFuel_succ, if_neg (by simp)]
      have hfuel : r.length
          ≤ (encRowChars d r
              ++ '\n' :: List.flatten (rows.map (fun r => encRowChars d r ++ ['\n']))).length
            + 1 := by
        have := encRow_length_ge d r
        simp only [List.length_append, List.length_cons]
        omega
      rw [parseRec_enc d hq hnl r _ _ (hne r (by simp)) hfuel]
      show (match parseDocFuel d m
          (List.flatten (rows.map (fun r => encRowChars d r ++ ['\n']))) with
        | none => none
        | some rs => some (r :: rs)) = some (r :: rows)
      rw [ih m (fun x hx => hne x (by simp [hx])) (by simp at hlen ⊢; omega)]

/-- C3: the CSV export/import round trip — for every dataset and every
delimiter the program offers, parsing the csv export with the same
delimiter recovers the dataset exactly, columns in order and every cell
value intact. -/
theorem C3_csv_roundtrip (d : Char) (df : Df) (hd : d ∈ csvDelims)
    (hc : df.cols ≠ []) (hr : ∀ r ∈ df.rows, r.length = df.cols.length) :
    parseCsv d (toCsv d df) = some df := by
  obtain ⟨cols, rows⟩ := df
  have hdelim : d = ',' ∨ d = ';' ∨ d = '\t' ∨ d = '|' := by
    simpa [csvDelims] using hd
  have hq : d ≠ '"' := by rcases hdelim with rfl | rfl | rfl | rfl <;> decide
  have hnl : d ≠ '\n' := by rcases hdelim with rfl | rfl | rfl | rfl <;> decide
  have hcols : cols ≠ [] := hc
  have hne : ∀ r ∈ cols :: rows, r ≠ [] := by
    intro r hm
    rcases List.mem_cons.mp hm with rfl | hm2
    · exact hcols
    · have hlen := hr r hm2
      intro hnil
      rw [hnil] at hlen
      have h0 : cols.length = 0 := by simpa using hlen.symm
      exact hcols (List.length_eq_zero.mp h0)
  have hflat : csvChars d ⟨cols, rows⟩
      = List.flatten ((cols :: rows).map (fun r => encRowChars d r ++ ['\n'])) := rfl
  have hfuel : (cols :: rows).length ≤ (csvChars d ⟨cols, rows⟩).length + 1 := by
    have := rows_le_flatten_length d (cols :: rows)
    rw [hflat]
    omega
  show (match parseDocFuel d ((toCsv d ⟨cols, rows⟩).data.length + 1)
      (toCsv d ⟨cols, rows⟩).data with
    | some (h :: rs) => some (Df.mk h rs)
    | _ => none) = some ⟨cols, rows⟩
  have hdata : (toCsv d ⟨cols, rows⟩).data = csvChars d ⟨cols, rows⟩ := rfl
  rw [hdata, hflat, parseDoc_enc d hq hnl (cols :: rows) _ hne (by
    rw [← hflat]; exact hfuel)]

/-- Witness for C3 at a concrete dataset containing a delimiter, a quote
and a newline inside cell values, with the comma delimiter. -/
theorem C3_witness :
    (',' ∈ csvDelims) ∧
      parseCsv ',' (toCsv ',' ⟨["a", "b"], [["x,1", "y\"z"], ["", "w\nv"]]⟩)
        = some ⟨["a", "b"], [["x,1", "y\"z"], ["", "w\nv"]]⟩ :=
  ⟨by decide,
   C3_csv_roundtrip ',' ⟨["a", "b"], [["x,1", "y\"z"], ["", "w\nv"]]⟩
     (by decide) (by decide) (by decide)⟩
